import Mathlib

/-!
# Verification of the schedule-generator core

Shallow embedding of `backend/app.py`: the normalizer `load_and_clean_data`
and the grid builder `generate_schedule_excel` (modelled here as
`generate_schedule`, returning the ordered sequence of per-day matrices that
the Excel renderer would serialize; workbook serialization and styling are
I/O plumbing outside the core).

Python string operations (`str.strip`, `str.upper`, `str.split`, string
comparison, `sep.join`) are embedded as structurally recursive functions on
character lists so that every definition evaluates inside the kernel.
-/

/-! ## Python string primitives -/

/-- Characters removed by Python `str.strip()` (ASCII whitespace:
tab, newline, vertical tab, form feed, carriage return, space). -/
def pyIsSpace (c : Char) : Bool := c.toNat = 32 || (9 ≤ c.toNat && c.toNat ≤ 13)

/-- Python `str.strip()`. -/
def pyStrip (s : String) : String :=
  String.mk (((s.data.dropWhile pyIsSpace).reverse.dropWhile pyIsSpace).reverse)

/-- Python `str.upper()` on one character (ASCII range). -/
def pyCharUpper (c : Char) : Char :=
  if 97 ≤ c.toNat && c.toNat ≤ 122 then Char.ofNat (c.toNat - 32) else c

/-- Python `str.upper()`. -/
def pyUpper (s : String) : String := String.mk (s.data.map pyCharUpper)

/-- Python `sep.join(parts)`. -/
def pyJoin (sep : String) : List String → String
  | [] => ""
  | [x] => x
  | x :: y :: xs => x ++ sep ++ pyJoin sep (y :: xs)

/-- Code-point lexicographic strict order on character lists
(Python `<` on `str`). -/
def lexLt : List Char → List Char → Prop
  | [], [] => False
  | [], _ :: _ => True
  | _ :: _, [] => False
  | a :: as, b :: bs => a.toNat < b.toNat ∨ (a = b ∧ lexLt as bs)

/-- Code-point lexicographic order on character lists (Python `<=` on `str`). -/
def lexLe : List Char → List Char → Prop
  | [], _ => True
  | _ :: _, [] => False
  | a :: as, b :: bs => a.toNat < b.toNat ∨ (a = b ∧ lexLe as bs)

instance lexLt.instDecidable : ∀ xs ys, Decidable (lexLt xs ys)
  | [], [] => isFalse (fun h => h)
  | [], _ :: _ => isTrue trivial
  | _ :: _, [] => isFalse (fun h => h)
  | a :: as, b :: bs =>
    have : Decidable (lexLt as bs) := lexLt.instDecidable as bs
    inferInstanceAs (Decidable (a.toNat < b.toNat ∨ (a = b ∧ lexLt as bs)))

instance lexLe.instDecidable : ∀ xs ys, Decidable (lexLe xs ys)
  | [], _ => isTrue trivial
  | _ :: _, [] => isFalse (fun h => h)
  | a :: as, b :: bs =>
    have : Decidable (lexLe as bs) := lexLe.instDecidable as bs
    inferInstanceAs (Decidable (a.toNat < b.toNat ∨ (a = b ∧ lexLe as bs)))

/-- Python `a < b` on strings. -/
def strLt (a b : String) : Prop := lexLt a.data b.data

/-- Python `a <= b` on strings. -/
def strLe (a b : String) : Prop := lexLe a.data b.data

instance : DecidableRel strLt := fun a b => lexLt.instDecidable a.data b.data

instance : DecidableRel strLe := fun a b => lexLe.instDecidable a.data b.data

/-- Lexicographic combination used by Python tuple comparison: compare the
first components strictly, fall through to the rest on equality. -/
def lexPairLe {α β : Type} (ltA : α → α → Prop) (leB : β → β → Prop) (x y : α × β) : Prop :=
  ltA x.1 y.1 ∨ (x.1 = y.1 ∧ leB x.2 y.2)

instance {α β : Type} (ltA : α → α → Prop) (leB : β → β → Prop) [DecidableEq α]
    [DecidableRel ltA] [DecidableRel leB] : DecidableRel (lexPairLe ltA leB) :=
  fun x y => inferInstanceAs (Decidable (ltA x.1 y.1 ∨ (x.1 = y.1 ∧ leB x.2 y.2)))

/-- The `groupby` key `(DAY, START TIME, SUBJECT, TEACHER, ROOM)`. -/
abbrev GroupKey := String × String × String × String × String

/-- Python ordering on the 5-tuple grouping key. -/
def keyLe : GroupKey → GroupKey → Prop :=
  lexPairLe strLt (lexPairLe strLt (lexPairLe strLt (lexPairLe strLt strLe)))

instance : DecidableRel keyLe := fun x y =>
  inferInstanceAs
    (Decidable (lexPairLe strLt (lexPairLe strLt (lexPairLe strLt (lexPairLe strLt strLe))) x y))

/-! ## First-occurrence deduplication (pandas `Series.unique()`) -/

/-- One step of first-occurrence deduplication. -/
def uniqueStep {α : Type} [DecidableEq α] (acc : List α) (x : α) : List α :=
  if x ∈ acc then acc else acc ++ [x]

/-- pandas `Series.unique()`: the distinct values in order of first
appearance. -/
def uniqueFirst {α : Type} [DecidableEq α] (l : List α) : List α :=
  l.foldl uniqueStep []

/-! ## Time parsing and formatting -/

/-- ASCII digit test. -/
def isDigitCh (c : Char) : Bool := 48 ≤ c.toNat && c.toNat ≤ 57

/-- Numeric value of a digit string. -/
def digitsToNat (cs : List Char) : Nat := cs.foldl (fun n c => n * 10 + (c.toNat - 48)) 0

/-- Split a character list at a separator (Python `str.split(sep)`). -/
def splitChars (p : Char → Bool) : List Char → List (List Char)
  | [] => [[]]
  | c :: rest =>
    match splitChars p rest with
    | [] => if p c then [[], []] else [[c]]
    | r :: rs => if p c then [] :: r :: rs else (c :: r) :: rs

/-- One `strptime` field for `%H`/`%M`/`%S`: one or two digits. -/
def parseField (cs : List Char) : Option Nat :=
  if (cs.length = 1 || cs.length = 2) && cs.all isDigitCh then some (digitsToNat cs) else none

/-- Strict `datetime.strptime(s, "%H:%M:%S")` (`pd.to_datetime` with
`format="%H:%M:%S"`): three colon-separated 1–2 digit fields in range. -/
def parseHMS (s : String) : Option (Nat × Nat × Nat) :=
  match splitChars (fun c => c == ':') s.data with
  | [hs, ms, ss] =>
    match parseField hs, parseField ms, parseField ss with
    | some h, some m, some sec =>
      if h < 24 && m < 60 && sec < 60 then some (h, m, sec) else none
    | _, _, _ => none
  | _ => none

/-- Two-digit zero-padded decimal rendering. -/
def fmt2 (n : Nat) : String :=
  if n < 10 then String.mk ['0', Nat.digitChar n]
  else String.mk [Nat.digitChar (n / 10), Nat.digitChar (n % 10)]

/-- `datetime.strftime("%H:%M:%S")`. -/
def fmtHMS (t : Nat × Nat × Nat) : String := fmt2 t.1 ++ ":" ++ fmt2 t.2.1 ++ ":" ++ fmt2 t.2.2

/-- `generate_time_slots` (lines 20–29): 30-minute slots from `08:05:00`
(485 minutes) while `current <= 17:35:00` (1055 minutes); the loop body runs
for `485 + 30*i ≤ 1055`, i.e. `i = 0, …, 19`. -/
def generate_time_slots : List String :=
  (List.range 20).map (fun i => fmtHMS ((485 + 30 * i) / 60, (485 + 30 * i) % 60, 0))

/-! ## Raw tables and the normalizer `load_and_clean_data` -/

/-- A raw spreadsheet cell: `none` models a missing value (pandas `NaN`),
`some s` a present cell whose Python string form `str(x)` is `s`. -/
abbrev Cell := Option String

/-- One raw sheet as read by `pd.read_excel` (a `RawRow` table). -/
structure RawTable where
  columns : List String
  rows : List (List Cell)
deriving Repr, DecidableEq

/-- pandas `str(x)` under `astype(str)`: missing cells print as `"nan"`. -/
def cellStr : Cell → String
  | none => "nan"
  | some s => s

/-- Extract a named column (label-based, first matching label). -/
def columnOf (t : RawTable) (name : String) : List Cell :=
  t.rows.map (fun r => r.getD (t.columns.indexOf name) none)

/-- `pd.concat(all_sheets.values(), ignore_index=True)` (line 38): union of
columns in order of first appearance, missing columns filled with `NaN`. -/
def concatTables (ts : List RawTable) : RawTable :=
  let cols := uniqueFirst (ts.flatMap (fun t => t.columns))
  { columns := cols,
    rows := ts.flatMap (fun t => t.rows.map (fun r =>
      cols.map (fun c =>
        if t.columns.contains c then r.getD (t.columns.indexOf c) none else none))) }

/-- `df.drop(columns=[name])`. -/
def dropColumn (t : RawTable) (name : String) : RawTable :=
  let j := t.columns.indexOf name
  { columns := t.columns.eraseIdx j, rows := t.rows.map (fun r => r.eraseIdx j) }

/-- `df.rename(columns={a: b})`. -/
def renameColumn (t : RawTable) (a b : String) : RawTable :=
  { t with columns := t.columns.map (fun c => if c = a then b else c) }

/-- Lines 41–43: if both `DAY` and `DAY.1` exist, drop `DAY` and promote
`DAY.1` to be the day column. -/
def reconcileDay (t : RawTable) : RawTable :=
  if "DAY" ∈ t.columns ∧ "DAY.1" ∈ t.columns then
    renameColumn (dropColumn t "DAY") "DAY.1" "DAY"
  else t

/-- Line 45: `df.columns = df.columns.str.strip().str.upper()`. -/
def upperColumns (t : RawTable) : RawTable :=
  { t with columns := t.columns.map (fun c => pyUpper (pyStrip c)) }

/-- The merged, day-reconciled, case-normalized table (lines 38–45). -/
def mergedTable (ts : List RawTable) : RawTable :=
  upperColumns (reconcileDay (concatTables ts))

/-- Line 48. -/
def required_cols : List String :=
  ["DAY", "START TIME", "SUBJECT", "TEACHER", "ROOM", "GROUP", "INTAKE"]

/-- `df[existing_cols]` (line 56): project onto the listed columns. -/
def selectColumns (t : RawTable) (cs : List String) : RawTable :=
  { columns := cs,
    rows := t.rows.map (fun r => cs.map (fun c => r.getD (t.columns.indexOf c) none)) }

/-- pandas permissive `pd.to_datetime(x, errors="coerce")` (line 62),
modelled on the value shapes this pipeline can produce: a present cell
parses when its trimmed text is an `H:M:S` time of day, and everything
else — including missing cells (`NaT`) — coerces to missing. -/
def permissiveTime (c : Cell) : Option (Nat × Nat × Nat) :=
  match c with
  | none => none
  | some s => parseHMS (pyStrip s)

/-- One row of the cleaned dataframe returned by the normalizer. `day`
holds the raw `DAY` cell (the cleaning loop of lines 66–69 covers
`ROOM, GROUP, TEACHER, SUBJECT, INTAKE` but not `DAY`, so day cells are
neither stripped nor defaulted and may still be missing). -/
structure CleanedRow where
  day : Cell
  start_time : String
  subject : String
  teacher : String
  room : String
  group : String
  intake : String
  intake_group : String
deriving Repr, DecidableEq, Inhabited

/-- The cleaned dataframe. `hasDay` records whether a `DAY` column exists
at all (when it does not, the cleaned frame simply lacks that column). -/
structure CleanedData where
  hasDay : Bool
  rows : List CleanedRow
deriving Repr, DecidableEq

/-- `load_and_clean_data` (lines 31–74). Fails (Python `ValueError`,
"Missing critical column: START TIME. Found: …") with the list of columns
actually found iff no `START TIME` column exists after merging and
case-normalization. The strict time parse is all-or-nothing over the
column (`try`/`except` around a whole-column `pd.to_datetime`); on any
failure the permissive per-value parse with coercion is used instead, and
rows whose start time is missing afterwards are dropped
(`dropna(subset=["START TIME"])`). -/
def load_and_clean_data (ts : List RawTable) : Except (List String) CleanedData :=
  let t2 := mergedTable ts
  if "START TIME" ∈ t2.columns then
    let t3 := selectColumns t2 (required_cols.filter (fun c => t2.columns.contains c))
    let stRaw := columnOf t3 "START TIME"
    let strictAll := stRaw.all (fun c => (parseHMS (pyStrip (cellStr c))).isSome)
    let stNorm : List (Option String) :=
      if strictAll then stRaw.map (fun c => (parseHMS (pyStrip (cellStr c))).map fmtHMS)
      else stRaw.map (fun c => (permissiveTime c).map fmtHMS)
    let hasDay := "DAY" ∈ t3.columns
    let dayCol := columnOf t3 "DAY"
    let textCol := fun (name : String) =>
      if name ∈ t3.columns then (columnOf t3 name).map (fun c => pyStrip (cellStr c))
      else t3.rows.map (fun _ => "")
    let subject := textCol "SUBJECT"
    let teacher := textCol "TEACHER"
    let room := textCol "ROOM"
    let group := textCol "GROUP"
    let intake := textCol "INTAKE"
    Except.ok
      { hasDay := hasDay,
        rows := (List.range t3.rows.length).filterMap (fun i =>
          match stNorm.getD i none with
          | none => none
          | some st => some
              { day := if hasDay then dayCol.getD i none else none,
                start_time := st,
                subject := subject.getD i "",
                teacher := teacher.getD i "",
                room := room.getD i "",
                group := group.getD i "",
                intake := intake.getD i "",
                intake_group := intake.getD i "" ++ " " ++ group.getD i "" }) }
  else Except.error t2.columns

/-! ## The grid builder `generate_schedule_excel` -/

/-- One row of `df_grouped` (line 120): the grouping key plus the merged
`INTAKE_GROUP` text. -/
structure GroupedRow where
  day : String
  start_time : String
  subject : String
  teacher : String
  room : String
  intake_group : String
deriving Repr, DecidableEq

/-- Rows keyed for grouping. pandas `groupby` silently drops rows whose
`DAY` key is missing (`dropna=True` default); the remaining keys pair with
the row's `INTAKE_GROUP` payload. -/
def rowKeyed (rows : List CleanedRow) : List (GroupKey × String) :=
  rows.filterMap (fun r =>
    r.day.map (fun d => ((d, r.start_time, r.subject, r.teacher, r.room), r.intake_group)))

/-- Line 120:
`df.groupby(['DAY','START TIME','SUBJECT','TEACHER','ROOM'])['INTAKE_GROUP']`
`.apply(lambda x: '\n'.join(x.unique())).reset_index()`.
`groupby` defaults to `sort=True`, so the resulting frame is ordered by the
key tuples; within one group the source row order is kept and
`Series.unique()` dedupes by first occurrence. `sorted` in Python is a
stable sort, embedded as `List.insertionSort` (also stable). -/
def df_grouped (rows : List CleanedRow) : List GroupedRow :=
  let keyed := rowKeyed rows
  let keys := List.insertionSort keyLe (uniqueFirst (keyed.map (fun p => p.1)))
  keys.map (fun k =>
    { day := k.1, start_time := k.2.1, subject := k.2.2.1, teacher := k.2.2.2.1,
      room := k.2.2.2.2,
      intake_group :=
        pyJoin "\n" (uniqueFirst ((keyed.filter (fun p => p.1 == k)).map (fun p => p.2))) })

/-- Lines 122–127. -/
def day_rank_table : List (String × Nat) :=
  [("MON", 0), ("MONDAY", 0), ("TUE", 1), ("TUESDAY", 1),
   ("WED", 2), ("WEDNESDAY", 2), ("THU", 3), ("THURSDAY", 3),
   ("FRI", 4), ("FRIDAY", 4), ("SAT", 5), ("SATURDAY", 5),
   ("SUN", 6), ("SUNDAY", 6)]

/-- Line 128: `day_rank.get(str(d).strip().upper(), 99)`. -/
def day_rank (d : String) : Nat := (day_rank_table.lookup (pyUpper (pyStrip d))).getD 99

/-- The sort key relation of line 128. -/
def dayLe (a b : String) : Prop := day_rank a ≤ day_rank b

instance : DecidableRel dayLe := fun a b => Nat.decLe (day_rank a) (day_rank b)

/-- The per-day occupancy matrix (`matrix_df`): `rowLabels` is the index
(`unique_primary`), `cols` the column labels (`[primary_col] + time_slots`),
and `grid` the cell contents in the same positional order. -/
structure DayMatrix where
  primary : String
  cols : List String
  rowLabels : List String
  grid : List (List Cell)
deriving Repr, DecidableEq, Inhabited

/-- Positional cell read (out-of-range reads as empty). -/
def getCell (m : DayMatrix) (i j : Nat) : Cell := (m.grid.getD i []).getD j none

/-- Replace the element at one position (no-op out of range). -/
def listModify {α : Type} : List α → Nat → (α → α) → List α
  | [], _, _ => []
  | x :: xs, 0, f => f x :: xs
  | x :: xs, n + 1, f => x :: listModify xs n f

/-- Positional cell write. -/
def setCell (m : DayMatrix) (i j : Nat) (v : String) : DayMatrix :=
  { m with grid := listModify m.grid i (fun row => row.set j (some v)) }

/-- `update_cell` (lines 165–169): `matrix_df.at[r, c]` is label-based, so
the labels are resolved to positions first; an empty cell receives the text
as-is, a non-empty cell gets the new text appended after a `"\n---\n"`
separator. -/
def update_cell (m : DayMatrix) (r c : String) (text : String) : DayMatrix :=
  let i := m.rowLabels.indexOf r
  let j := m.cols.indexOf c
  match getCell m i j with
  | none => setCell m i j text
  | some old => setCell m i j (old ++ "\n---\n" ++ text)

/-- Lines 136–141: the primary (row-axis) column name for a view. -/
def primaryColName (view : String) : String := if view = "room" then "ROOM" else "TEACHER"

/-- The primary value of one grouped row under a view. -/
def primaryOf (view : String) (g : GroupedRow) : String :=
  if view = "room" then g.room else g.teacher

/-- Lines 160–161: `"\n".join([row[col] for col in display_cols])`. -/
def cellTextOf (view : String) (g : GroupedRow) : String :=
  if view = "room" then pyJoin "\n" [g.teacher, g.subject, g.intake_group]
  else pyJoin "\n" [g.room, g.subject, g.intake_group]

/-- Loop body of lines 153–177 for one grouped row: skip when the primary
value is not in the matrix index; otherwise, when the start time is one of
the matrix columns, write the display text there and — when a further
column exists — also into the immediately following column. -/
def fillEntry (view : String) (m : DayMatrix) (g : GroupedRow) : DayMatrix :=
  let primary_val := primaryOf view g
  if primary_val ∈ m.rowLabels then
    let start_str := g.start_time
    let cell_text := cellTextOf view g
    if start_str ∈ m.cols then
      let m1 := update_cell m primary_val start_str cell_text
      let start_idx := m.cols.indexOf start_str
      if start_idx + 1 < m.cols.length then
        update_cell m1 primary_val (m.cols.getD (start_idx + 1) "") cell_text
      else m1
    else m
  else m

/-- `generate_schedule_excel` (lines 111–182) up to workbook serialization:
the ordered sequence of `(day label, DayMatrix)` the renderer receives.
Days are sorted by `day_rank` (stable, line 128); a day with no remaining
valid primary values is skipped (lines 133 and 145); the matrix starts with
the primary column pre-filled and all slot cells empty (lines 148–150) and
is then filled by the row loop (lines 153–177). -/
def generate_schedule (data : CleanedData) (view : String) : List (String × DayMatrix) :=
  let grouped := df_grouped data.rows
  let unique_days := List.insertionSort dayLe (uniqueFirst (grouped.map (fun g => g.day)))
  unique_days.filterMap (fun day =>
    let day_data := grouped.filter (fun g => g.day == day)
    if day_data.isEmpty then none
    else
      let primary_col := primaryColName view
      let unique_primary := List.insertionSort strLe
        ((uniqueFirst (day_data.map (primaryOf view))).filter
          (fun x => x != "nan" && x != ""))
      if unique_primary.isEmpty then none
      else
        let matrix_cols := primary_col :: generate_time_slots
        let m0 : DayMatrix :=
          { primary := primary_col, cols := matrix_cols, rowLabels := unique_primary,
            grid := unique_primary.map
              (fun p => some p :: generate_time_slots.map (fun _ => none)) }
        some (day, day_data.foldl (fillEntry view) m0))

/-- The whole core: normalize, then build. -/
def pipeline (ts : List RawTable) (view : String) :
    Except (List String) (List (String × DayMatrix)) :=
  (load_and_clean_data ts).map (fun d => generate_schedule d view)

/-! ## Cell-merge, well-formedness and ordering predicates -/

/-- The merge performed by `update_cell`: keep existing content, appending
new text after the `"\n---\n"` separator. -/
def mergeCell (old : Cell) (text : String) : String :=
  match old with
  | none => text
  | some s => s ++ "\n---\n" ++ text

/-- Well-formedness of a matrix: the grid has one row per row label and one
entry per column label. -/
abbrev MatrixWF (m : DayMatrix) : Prop :=
  m.grid.length = m.rowLabels.length ∧ ∀ row ∈ m.grid, row.length = m.cols.length

/-- The strict order in which day matrices are actually emitted: increasing
weekday rank, ties broken by the string order the grouping step left the
labels in. -/
def dayOrd (a b : String) : Prop :=
  day_rank a < day_rank b ∨ (day_rank a = day_rank b ∧ strLt a b)

/-! ## Concrete example inputs and their pipeline outputs -/

/-- A one-row room matrix as the grid builder initializes it. -/
def c2w_m : DayMatrix :=
  { primary := "ROOM", cols := "ROOM" :: generate_time_slots, rowLabels := ["101"],
    grid := [some "101" :: generate_time_slots.map (fun _ => none)] }

/-- A grouped row starting at the first axis slot. -/
def c2w_g : GroupedRow :=
  { day := "Mon", start_time := "08:05:00", subject := "Math", teacher := "A",
    room := "101", intake_group := "JAN G1" }

/-- A one-row sheet whose start time `09:00:00` parses but is not a slot of
the fixed axis. -/
def c3_table : RawTable :=
  { columns := ["DAY", "START TIME", "SUBJECT", "TEACHER", "ROOM", "GROUP", "INTAKE"],
    rows := [[some "Mon", some "09:00:00", some "Math", some "A", some "101",
      some "G1", some "JAN"]] }

/-- The cleaned row the normalizer produces for `c3_table`. -/
def c3_row : CleanedRow :=
  { day := some "Mon", start_time := "09:00:00", subject := "Math", teacher := "A",
    room := "101", group := "G1", intake := "JAN", intake_group := "JAN G1" }

/-- What the grid builder emits for `c3_table`. -/
def c3_out : List (String × DayMatrix) :=
  match load_and_clean_data [c3_table] with
  | .ok d => generate_schedule d "room"
  | .error _ => []

/-- The two-row input of the end-to-end example. -/
def c1_table : RawTable :=
  { columns := ["DAY", "START TIME", "SUBJECT", "TEACHER", "ROOM", "GROUP", "INTAKE"],
    rows := [
      [some "Mon", some "08:05:00", some "Math", some "A", some "101", some "G1", some "JAN"],
      [some "Mon", some "08:05:00", some "Math", some "A", some "101", some "G2", some "JAN"]] }

/-- The cleaned rows of `c1_table`. -/
def c1_cleaned : CleanedData :=
  match load_and_clean_data [c1_table] with
  | .ok d => d
  | .error _ => { hasDay := false, rows := [] }

/-- The matrices the grid builder emits for `c1_table` under the room view. -/
def c1_out : List (String × DayMatrix) := generate_schedule c1_cleaned "room"

/-- Input with missing `GROUP`/`INTAKE` cells in row 1 and a missing `ROOM`
cell in row 2 (all columns present). -/
def c9_table : RawTable :=
  { columns := ["DAY", "START TIME", "SUBJECT", "TEACHER", "ROOM", "GROUP", "INTAKE"],
    rows := [
      [some "Mon", some "08:05:00", some "Math", some "A", some "101", none, none],
      [some "Mon", some "08:05:00", some "Sci", some "B", none, some "G1", some "JAN"]] }

/-- The cleaned rows of `c9_table`. -/
def c9_cleaned : CleanedData :=
  match load_and_clean_data [c9_table] with
  | .ok d => d
  | .error _ => { hasDay := false, rows := [] }

/-- The matrices emitted for `c9_table` under the room view. -/
def c9_out : List (String × DayMatrix) := generate_schedule c9_cleaned "room"

/-- Two rows identical except for the day label's casing: `"Mon"` first,
`"MON"` second (encounter order `Mon, MON`). -/
def c10_table : RawTable :=
  { columns := ["DAY", "START TIME", "SUBJECT", "TEACHER", "ROOM", "GROUP", "INTAKE"],
    rows := [
      [some "Mon", some "08:05:00", some "Math", some "A", some "101", some "G1", some "JAN"],
      [some "MON", some "08:05:00", some "Math", some "A", some "101", some "G2", some "JAN"]] }

/-- The cleaned rows of `c10_table`. -/
def c10_cleaned : CleanedData :=
  match load_and_clean_data [c10_table] with
  | .ok d => d
  | .error _ => { hasDay := false, rows := [] }

/-- The matrices emitted for `c10_table` under the room view. -/
def c10_out : List (String × DayMatrix) := generate_schedule c10_cleaned "room"

/-- The grouped row for the `"Mon"`-labelled record of `c10_table`. -/
def c10_mon_grouped : GroupedRow :=
  { day := "Mon", start_time := "08:05:00", subject := "Math", teacher := "A",
    room := "101", intake_group := "JAN G1" }

/-- Two rows with unrecognized day labels, `"Zeta"` encountered before
`"Alpha"`. -/
def c5cx_table : RawTable :=
  { columns := ["DAY", "START TIME", "SUBJECT", "TEACHER", "ROOM", "GROUP", "INTAKE"],
    rows := [
      [some "Zeta", some "08:05:00", some "Math", some "A", some "101", some "G1", some "JAN"],
      [some "Alpha", some "08:05:00", some "Sci", some "B", some "102", some "G2", some "JAN"]] }

/-- The day labels emitted for `c5cx_table`. -/
def c5cx_days : List String :=
  match load_and_clean_data [c5cx_table] with
  | .ok d => (generate_schedule d "room").map (fun p => p.1)
  | .error _ => []

/-- Three rows with the spec's example days `FRI, Monday, wed`. -/
def c5ex_table : RawTable :=
  { columns := ["DAY", "START TIME", "SUBJECT", "TEACHER", "ROOM", "GROUP", "INTAKE"],
    rows := [
      [some "FRI", some "08:05:00", some "Math", some "A", some "101", some "G1", some "JAN"],
      [some "Monday", some "08:05:00", some "Sci", some "B", some "102", some "G2", some "JAN"],
      [some "wed", some "08:05:00", some "Art", some "C", some "103", some "G3", some "JAN"]] }

/-- The day labels emitted for the spec's example days `FRI, Monday, wed`. -/
def c5ex_days : List String :=
  match load_and_clean_data [c5ex_table] with
  | .ok d => (generate_schedule d "room").map (fun p => p.1)
  | .error _ => []

theorem char_toNat_inj {a b : Char} (h : a.toNat = b.toNat) : a = b :=
  Char.ext (UInt32.toNat.inj h)

theorem lexLe_refl : ∀ xs, lexLe xs xs
  | [] => trivial
  | _ :: as => Or.inr ⟨rfl, lexLe_refl as⟩

theorem lexLe_of_lexLt : ∀ {xs ys}, lexLt xs ys → lexLe xs ys
  | [], [], h => h.elim
  | [], _ :: _, _ => trivial
  | _ :: _, [], h => h.elim
  | _ :: _, _ :: _, Or.inl h => Or.inl h
  | _ :: _, _ :: _, Or.inr ⟨he, h⟩ => Or.inr ⟨he, lexLe_of_lexLt h⟩

theorem lexLe_trans : ∀ {xs ys zs}, lexLe xs ys → lexLe ys zs → lexLe xs zs
  | [], _, _, _, _ => trivial
  | _ :: _, [], _, h, _ => h.elim
  | _ :: _, _ :: _, [], _, h => h.elim
  | _ :: _, _ :: _, _ :: _, Or.inl h1, Or.inl h2 => Or.inl (Nat.lt_trans h1 h2)
  | _ :: _, _ :: _, _ :: _, Or.inl h1, Or.inr ⟨he, _⟩ => Or.inl (he ▸ h1)
  | _ :: _, _ :: _, _ :: _, Or.inr ⟨he, _⟩, Or.inl h2 => Or.inl (he ▸ h2)
  | _ :: _, _ :: _, _ :: _, Or.inr ⟨he1, h1⟩, Or.inr ⟨he2, h2⟩ =>
    Or.inr ⟨he1.trans he2, lexLe_trans h1 h2⟩

theorem lexLt_trans : ∀ {xs ys zs}, lexLt xs ys → lexLt ys zs → lexLt xs zs
  | [], [], _, h, _ => h.elim
  | [], _ :: _, [], _, h => h.elim
  | [], _ :: _, _ :: _, _, _ => trivial
  | _ :: _, [], _, h, _ => h.elim
  | _ :: _, _ :: _, [], _, h => h.elim
  | _ :: _, _ :: _, _ :: _, Or.inl h1, Or.inl h2 => Or.inl (Nat.lt_trans h1 h2)
  | _ :: _, _ :: _, _ :: _, Or.inl h1, Or.inr ⟨he, _⟩ => Or.inl (he ▸ h1)
  | _ :: _, _ :: _, _ :: _, Or.inr ⟨he, _⟩, Or.inl h2 => Or.inl (he ▸ h2)
  | _ :: _, _ :: _, _ :: _, Or.inr ⟨he1, h1⟩, Or.inr ⟨he2, h2⟩ =>
    Or.inr ⟨he1.trans he2, lexLt_trans h1 h2⟩

theorem lexLe_total : ∀ xs ys, lexLe xs ys ∨ lexLe ys xs
  | [], _ => Or.inl trivial
  | _ :: _, [] => Or.inr trivial
  | a :: as, b :: bs => by
    rcases Nat.lt_trichotomy a.toNat b.toNat with h | h | h
    · exact Or.inl (Or.inl h)
    · rcases lexLe_total as bs with h2 | h2
      · exact Or.inl (Or.inr ⟨char_toNat_inj h, h2⟩)
      · exact Or.inr (Or.inr ⟨char_toNat_inj h.symm, h2⟩)
    · exact Or.inr (Or.inl h)

theorem lexLt_trichotomy : ∀ xs ys, lexLt xs ys ∨ xs = ys ∨ lexLt ys xs
  | [], [] => Or.inr (Or.inl rfl)
  | [], _ :: _ => Or.inl trivial
  | _ :: _, [] => Or.inr (Or.inr trivial)
  | a :: as, b :: bs => by
    rcases Nat.lt_trichotomy a.toNat b.toNat with h | h | h
    · exact Or.inl (Or.inl h)
    · have hab : a = b := char_toNat_inj h
      rcases lexLt_trichotomy as bs with h2 | h2 | h2
      · exact Or.inl (Or.inr ⟨hab, h2⟩)
      · exact Or.inr (Or.inl (by rw [hab, h2]))
      · exact Or.inr (Or.inr (Or.inr ⟨hab.symm, h2⟩))
    · exact Or.inr (Or.inr (Or.inl h))

theorem lexLt_of_lexLe_of_ne : ∀ {xs ys}, lexLe xs ys → xs ≠ ys → lexLt xs ys
  | [], [], _, hne => absurd rfl hne
  | [], _ :: _, _, _ => trivial
  | _ :: _, [], h, _ => h.elim
  | _ :: _, _ :: _, Or.inl h, _ => Or.inl h
  | a :: as, _ :: bs, Or.inr ⟨he, h⟩, hne => by
    subst he
    have : as ≠ bs := fun hab => hne (by rw [hab])
    exact Or.inr ⟨rfl, lexLt_of_lexLe_of_ne h this⟩

theorem string_data_inj : ∀ {a b : String}, a.data = b.data → a = b
  | ⟨_⟩, ⟨_⟩, h => congrArg String.mk h

theorem strLe_refl (a : String) : strLe a a := lexLe_refl a.data

theorem strLe_trans {a b c : String} (h1 : strLe a b) (h2 : strLe b c) : strLe a c :=
  lexLe_trans h1 h2

theorem strLe_total (a b : String) : strLe a b ∨ strLe b a := lexLe_total a.data b.data

theorem strLt_trans {a b c : String} (h1 : strLt a b) (h2 : strLt b c) : strLt a c :=
  lexLt_trans h1 h2

theorem strLt_trichotomy (a b : String) : strLt a b ∨ a = b ∨ strLt b a := by
  rcases lexLt_trichotomy a.data b.data with h | h | h
  · exact Or.inl h
  · exact Or.inr (Or.inl (string_data_inj h))
  · exact Or.inr (Or.inr h)

theorem strLe_of_strLt {a b : String} (h : strLt a b) : strLe a b := lexLe_of_lexLt h

theorem strLt_of_strLe_of_ne {a b : String} (h : strLe a b) (hne : a ≠ b) : strLt a b :=
  lexLt_of_lexLe_of_ne h (fun hd => hne (string_data_inj hd))

instance : IsTrans String strLe := ⟨fun _ _ _ => strLe_trans⟩

instance : IsTotal String strLe := ⟨strLe_total⟩

theorem lexPairLe_trans {α β : Type} {ltA : α → α → Prop} {leB : β → β → Prop}
    (hA : ∀ a b c, ltA a b → ltA b c → ltA a c)
    (hB : ∀ a b c, leB a b → leB b c → leB a c) :
    ∀ x y z, lexPairLe ltA leB x y → lexPairLe ltA leB y z → lexPairLe ltA leB x z := by
  rintro x y z (h1 | ⟨he1, h1⟩) (h2 | ⟨he2, h2⟩)
  · exact Or.inl (hA _ _ _ h1 h2)
  · exact Or.inl (he2 ▸ h1)
  · exact Or.inl (he1 ▸ h2)
  · exact Or.inr ⟨he1.trans he2, hB _ _ _ h1 h2⟩

theorem lexPairLe_total {α β : Type} {ltA : α → α → Prop} {leB : β → β → Prop}
    (hA : ∀ a b, ltA a b ∨ a = b ∨ ltA b a) (hB : ∀ a b, leB a b ∨ leB b a) :
    ∀ x y, lexPairLe ltA leB x y ∨ lexPairLe ltA leB y x := by
  intro x y
  rcases hA x.1 y.1 with h | h | h
  · exact Or.inl (Or.inl h)
  · rcases hB x.2 y.2 with h2 | h2
    · exact Or.inl (Or.inr ⟨h, h2⟩)
    · exact Or.inr (Or.inr ⟨h.symm, h2⟩)
  · exact Or.inr (Or.inl h)

theorem strLt_trans3 : ∀ (a b c : String), strLt a b → strLt b c → strLt a c :=
  fun _ _ _ h1 h2 => strLt_trans h1 h2

theorem strLe_trans3 : ∀ (a b c : String), strLe a b → strLe b c → strLe a c :=
  fun _ _ _ h1 h2 => strLe_trans h1 h2

instance : IsTrans GroupKey keyLe :=
  ⟨lexPairLe_trans strLt_trans3
    (lexPairLe_trans strLt_trans3
      (lexPairLe_trans strLt_trans3 (lexPairLe_trans strLt_trans3 strLe_trans3)))⟩

instance : IsTotal GroupKey keyLe :=
  ⟨lexPairLe_total strLt_trichotomy
    (lexPairLe_total strLt_trichotomy
      (lexPairLe_total strLt_trichotomy (lexPairLe_total strLt_trichotomy strLe_total)))⟩

theorem keyLe_fst {x y : GroupKey} (h : keyLe x y) : strLe x.1 y.1 := by
  rcases h with h | ⟨he, _⟩
  · exact strLe_of_strLt h
  · exact he ▸ strLe_refl _

/-! ## Deduplication lemmas -/

theorem foldl_uniqueStep_mem {α : Type} [DecidableEq α] :
    ∀ (l acc : List α) (a : α), a ∈ l.foldl uniqueStep acc ↔ a ∈ acc ∨ a ∈ l := by
  intro l
  induction l with
  | nil => intro acc a; simp
  | cons x xs ih =>
    intro acc a
    rw [List.foldl_cons, ih]
    unfold uniqueStep
    by_cases hx : x ∈ acc
    · rw [if_pos hx]
      constructor
      · rintro (h | h)
        · exact Or.inl h
        · exact Or.inr (List.mem_cons_of_mem _ h)
      · rintro (h | h)
        · exact Or.inl h
        · rcases List.mem_cons.mp h with rfl | h2
          · exact Or.inl hx
          · exact Or.inr h2
    · rw [if_neg hx]
      simp only [List.mem_append, List.mem_singleton, List.mem_cons]
      tauto

theorem mem_uniqueFirst {α : Type} [DecidableEq α] (l : List α) (a : α) :
    a ∈ uniqueFirst l ↔ a ∈ l := by
  unfold uniqueFirst
  rw [foldl_uniqueStep_mem]
  simp

theorem foldl_uniqueStep_nodup {α : Type} [DecidableEq α] :
    ∀ (l acc : List α), acc.Nodup → (l.foldl uniqueStep acc).Nodup := by
  intro l
  induction l with
  | nil => intro acc h; exact h
  | cons x xs ih =>
    intro acc h
    rw [List.foldl_cons]
    apply ih
    unfold uniqueStep
    by_cases hx : x ∈ acc
    · rwa [if_pos hx]
    · rw [if_neg hx, List.nodup_append]
      refine ⟨h, List.nodup_singleton x, ?_⟩
      intro a ha hax
      rw [List.mem_singleton] at hax
      exact hx (hax ▸ ha)

theorem nodup_uniqueFirst {α : Type} [DecidableEq α] (l : List α) : (uniqueFirst l).Nodup :=
  foldl_uniqueStep_nodup l [] List.nodup_nil

theorem foldl_uniqueStep_pairwise {α : Type} [DecidableEq α] {le lt : α → α → Prop}
    (hconv : ∀ a b, le a b → a ≠ b → lt a b) :
    ∀ (l acc : List α), l.Pairwise le → acc.Pairwise lt →
      (∀ a ∈ acc, ∀ x ∈ l, x ∈ acc ∨ lt a x) →
      (l.foldl uniqueStep acc).Pairwise lt := by
  intro l
  induction l with
  | nil => intro acc _ hacc _; exact hacc
  | cons x xs ih =>
    intro acc hl hacc hinv
    rw [List.foldl_cons]
    have hl2 := List.pairwise_cons.mp hl
    by_cases hx : x ∈ acc
    · have hstep : uniqueStep acc x = acc := by unfold uniqueStep; rw [if_pos hx]
      rw [hstep]
      exact ih acc hl2.2 hacc
        (fun a ha y hy => hinv a ha y (List.mem_cons_of_mem _ hy))
    · have hstep : uniqueStep acc x = acc ++ [x] := by unfold uniqueStep; rw [if_neg hx]
      rw [hstep]
      apply ih (acc ++ [x]) hl2.2
      · rw [List.pairwise_append]
        refine ⟨hacc, List.pairwise_singleton _ _, ?_⟩
        intro a ha b hb
        rw [List.mem_singleton] at hb
        rw [hb]
        rcases hinv a ha x (List.mem_cons_self _ _) with h | h
        · exact absurd h hx
        · exact h
      · intro a ha y hy
        rcases List.mem_append.mp ha with ha2 | ha2
        · rcases hinv a ha2 y (List.mem_cons_of_mem _ hy) with h | h
          · exact Or.inl (List.mem_append_left _ h)
          · exact Or.inr h
        · rw [List.mem_singleton] at ha2
          rw [ha2]
          by_cases hy2 : y ∈ acc ++ [x]
          · exact Or.inl hy2
          · refine Or.inr (hconv _ _ (hl2.1 y hy) ?_)
            intro hxy
            exact hy2 (List.mem_append_right _ (List.mem_singleton.mpr hxy.symm))

theorem uniqueFirst_pairwise_strict {α : Type} [DecidableEq α] {le lt : α → α → Prop}
    (hconv : ∀ a b, le a b → a ≠ b → lt a b) (l : List α) (hl : l.Pairwise le) :
    (uniqueFirst l).Pairwise lt :=
  foldl_uniqueStep_pairwise hconv l [] hl List.Pairwise.nil (by intro a ha; cases ha)

/-! ## Positional list access lemmas -/

theorem getD_set_self {α : Type} :
    ∀ (l : List α) (i : Nat) (v d : α), i < l.length → (l.set i v).getD i d = v := by
  intro l
  induction l with
  | nil => intro i v d h; cases h
  | cons x xs ih =>
    intro i v d h
    cases i with
    | zero => rfl
    | succ n =>
      rw [List.set_cons_succ, List.getD_cons_succ]
      exact ih n v d (Nat.lt_of_succ_lt_succ h)

theorem getD_set_ne {α : Type} :
    ∀ (l : List α) (i j : Nat) (v d : α), i ≠ j → (l.set i v).getD j d = l.getD j d := by
  intro l
  induction l with
  | nil => intro i j v d _; rfl
  | cons x xs ih =>
    intro i j v d h
    cases i with
    | zero =>
      cases j with
      | zero => exact absurd rfl h
      | succ n => rfl
    | succ n =>
      cases j with
      | zero => rfl
      | succ k =>
        rw [List.set_cons_succ, List.getD_cons_succ, List.getD_cons_succ]
        exact ih n k v d (fun he => h (he ▸ rfl))

theorem listModify_length {α : Type} :
    ∀ (l : List α) (i : Nat) (f : α → α), (listModify l i f).length = l.length := by
  intro l
  induction l with
  | nil => intro i f; rfl
  | cons x xs ih =>
    intro i f
    cases i with
    | zero => rfl
    | succ n => simp [listModify, ih]

theorem getD_listModify_self {α : Type} :
    ∀ (l : List α) (i : Nat) (f : α → α) (d : α),
      i < l.length → (listModify l i f).getD i d = f (l.getD i d) := by
  intro l
  induction l with
  | nil => intro i f d h; cases h
  | cons x xs ih =>
    intro i f d h
    cases i with
    | zero => rfl
    | succ n =>
      show (listModify xs n f).getD n d = f (xs.getD n d)
      exact ih n f d (Nat.lt_of_succ_lt_succ h)

theorem getD_listModify_ne {α : Type} :
    ∀ (l : List α) (i j : Nat) (f : α → α) (d : α),
      i ≠ j → (listModify l i f).getD j d = l.getD j d := by
  intro l
  induction l with
  | nil => intro i j f d _; rfl
  | cons x xs ih =>
    intro i j f d h
    cases i with
    | zero =>
      cases j with
      | zero => exact absurd rfl h
      | succ n => rfl
    | succ n =>
      cases j with
      | zero => rfl
      | succ k =>
        show (listModify xs n f).getD k d = xs.getD k d
        exact ih n k f d (fun he => h (he ▸ rfl))

theorem listModify_of_le {α : Type} :
    ∀ (l : List α) (i : Nat) (f : α → α), l.length ≤ i → listModify l i f = l := by
  intro l
  induction l with
  | nil => intro i f _; rfl
  | cons x xs ih =>
    intro i f h
    cases i with
    | zero => cases h
    | succ n => simp [listModify, ih n f (Nat.le_of_succ_le_succ h)]

theorem getD_mem {α : Type} :
    ∀ (l : List α) (i : Nat) (d : α), i < l.length → l.getD i d ∈ l := by
  intro l
  induction l with
  | nil => intro i d h; cases h
  | cons x xs ih =>
    intro i d h
    cases i with
    | zero => exact List.mem_cons_self _ _
    | succ n => exact List.mem_cons_of_mem _ (ih n d (Nat.lt_of_succ_lt_succ h))

theorem mem_listModify {α : Type} :
    ∀ (l : List α) (i : Nat) (f : α → α) (y : α),
      y ∈ listModify l i f → y ∈ l ∨ ∃ x ∈ l, y = f x := by
  intro l
  induction l with
  | nil => intro i f y h; cases h
  | cons x xs ih =>
    intro i f y h
    cases i with
    | zero =>
      rcases List.mem_cons.mp h with rfl | h2
      · exact Or.inr ⟨x, List.mem_cons_self _ _, rfl⟩
      · exact Or.inl (List.mem_cons_of_mem _ h2)
    | succ n =>
      rcases List.mem_cons.mp h with rfl | h2
      · exact Or.inl (List.mem_cons_self _ _)
      · rcases ih n f y h2 with h3 | ⟨z, hz, hy⟩
        · exact Or.inl (List.mem_cons_of_mem _ h3)
        · exact Or.inr ⟨z, List.mem_cons_of_mem _ hz, hy⟩

theorem update_cell_primary (m : DayMatrix) (r c t : String) :
    (update_cell m r c t).primary = m.primary := by
  unfold update_cell
  dsimp only
  cases getCell m (m.rowLabels.indexOf r) (m.cols.indexOf c) <;> rfl

theorem update_cell_cols (m : DayMatrix) (r c t : String) :
    (update_cell m r c t).cols = m.cols := by
  unfold update_cell
  dsimp only
  cases getCell m (m.rowLabels.indexOf r) (m.cols.indexOf c) <;> rfl

theorem update_cell_rowLabels (m : DayMatrix) (r c t : String) :
    (update_cell m r c t).rowLabels = m.rowLabels := by
  unfold update_cell
  dsimp only
  cases getCell m (m.rowLabels.indexOf r) (m.cols.indexOf c) <;> rfl

theorem getCell_setCell_self (m : DayMatrix) (i j : Nat) (v : String)
    (hi : i < m.grid.length) (hj : j < (m.grid.getD i []).length) :
    getCell (setCell m i j v) i j = some v := by
  unfold setCell getCell
  rw [getD_listModify_self _ _ _ _ hi, getD_set_self _ _ _ _ hj]

theorem getCell_setCell_other (m : DayMatrix) (i j : Nat) (v : String)
    (a b : Nat) (h : a ≠ i ∨ b ≠ j) :
    getCell (setCell m i j v) a b = getCell m a b := by
  unfold setCell getCell
  rcases h with h | h
  · rw [getD_listModify_ne _ _ _ _ _ (fun he => h he.symm)]
  · by_cases hi : i < m.grid.length
    · by_cases ha : a = i
      · rw [ha, getD_listModify_self _ _ _ _ hi, getD_set_ne _ _ _ _ _ (fun he => h he.symm)]
      · rw [getD_listModify_ne _ _ _ _ _ (fun he => ha he.symm)]
    · rw [listModify_of_le _ _ _ (Nat.le_of_not_lt hi)]

theorem setCell_WF (m : DayMatrix) (i j : Nat) (v : String) (hwf : MatrixWF m) :
    MatrixWF (setCell m i j v) := by
  unfold setCell MatrixWF
  constructor
  · rw [listModify_length]
    exact hwf.1
  · intro row hrow
    rcases mem_listModify _ _ _ _ hrow with h | ⟨x, hx, hrow2⟩
    · exact hwf.2 row h
    · rw [hrow2, List.length_set]
      exact hwf.2 x hx

theorem getCell_update_cell_self (m : DayMatrix) (r c t : String) (hwf : MatrixWF m)
    (hr : r ∈ m.rowLabels) (hc : c ∈ m.cols) :
    getCell (update_cell m r c t) (m.rowLabels.indexOf r) (m.cols.indexOf c) =
      some (mergeCell (getCell m (m.rowLabels.indexOf r) (m.cols.indexOf c)) t) := by
  have hi : m.rowLabels.indexOf r < m.grid.length := by
    rw [hwf.1]
    exact List.indexOf_lt_length.mpr hr
  have hj : m.cols.indexOf c < (m.grid.getD (m.rowLabels.indexOf r) []).length := by
    rw [hwf.2 _ (getD_mem _ _ _ hi)]
    exact List.indexOf_lt_length.mpr hc
  unfold update_cell
  dsimp only
  cases hg : getCell m (m.rowLabels.indexOf r) (m.cols.indexOf c) with
  | none => rw [getCell_setCell_self _ _ _ _ hi hj]; rfl
  | some old => rw [getCell_setCell_self _ _ _ _ hi hj]; rfl

theorem getCell_update_cell_other (m : DayMatrix) (r c t : String) (a b : Nat)
    (h : a ≠ m.rowLabels.indexOf r ∨ b ≠ m.cols.indexOf c) :
    getCell (update_cell m r c t) a b = getCell m a b := by
  unfold update_cell
  dsimp only
  cases getCell m (m.rowLabels.indexOf r) (m.cols.indexOf c) with
  | none => exact getCell_setCell_other _ _ _ _ _ _ h
  | some old => exact getCell_setCell_other _ _ _ _ _ _ h

theorem update_cell_WF (m : DayMatrix) (r c t : String) (hwf : MatrixWF m) :
    MatrixWF (update_cell m r c t) := by
  unfold update_cell
  dsimp only
  cases getCell m (m.rowLabels.indexOf r) (m.cols.indexOf c) with
  | none => exact setCell_WF _ _ _ _ hwf
  | some old => exact setCell_WF _ _ _ _ hwf

/-! ## Fill loop lemmas -/

theorem fillEntry_primary (view : String) (m : DayMatrix) (g : GroupedRow) :
    (fillEntry view m g).primary = m.primary := by
  unfold fillEntry
  dsimp only
  split_ifs <;>
    simp only [update_cell_primary]

theorem fillEntry_cols (view : String) (m : DayMatrix) (g : GroupedRow) :
    (fillEntry view m g).cols = m.cols := by
  unfold fillEntry
  dsimp only
  split_ifs <;>
    simp only [update_cell_cols]

theorem fillEntry_rowLabels (view : String) (m : DayMatrix) (g : GroupedRow) :
    (fillEntry view m g).rowLabels = m.rowLabels := by
  unfold fillEntry
  dsimp only
  split_ifs <;>
    simp only [update_cell_rowLabels]

theorem fillEntry_WF (view : String) (m : DayMatrix) (g : GroupedRow) (hwf : MatrixWF m) :
    MatrixWF (fillEntry view m g) := by
  unfold fillEntry
  dsimp only
  split_ifs with h1 h2 h3
  · exact update_cell_WF _ _ _ _ (update_cell_WF _ _ _ _ hwf)
  · exact update_cell_WF _ _ _ _ hwf
  · exact hwf
  · exact hwf

theorem foldl_fillEntry_cols (view : String) :
    ∀ (l : List GroupedRow) (m : DayMatrix), (l.foldl (fillEntry view) m).cols = m.cols := by
  intro l
  induction l with
  | nil => intro m; rfl
  | cons g gs ih =>
    intro m
    rw [List.foldl_cons, ih, fillEntry_cols]

theorem foldl_fillEntry_rowLabels (view : String) :
    ∀ (l : List GroupedRow) (m : DayMatrix),
      (l.foldl (fillEntry view) m).rowLabels = m.rowLabels := by
  intro l
  induction l with
  | nil => intro m; rfl
  | cons g gs ih =>
    intro m
    rw [List.foldl_cons, ih, fillEntry_rowLabels]

theorem foldl_fillEntry_primary (view : String) :
    ∀ (l : List GroupedRow) (m : DayMatrix),
      (l.foldl (fillEntry view) m).primary = m.primary := by
  intro l
  induction l with
  | nil => intro m; rfl
  | cons g gs ih =>
    intro m
    rw [List.foldl_cons, ih, fillEntry_primary]

/-! ## Day ordering lemmas -/

theorem orderedInsert_dayOrd (x : String) :
    ∀ (m : List String), m.Pairwise dayOrd →
      (∀ y ∈ m, day_rank x = day_rank y → strLt x y) →
      (List.orderedInsert dayLe x m).Pairwise dayOrd
  | [], _, _ => List.pairwise_singleton _ _
  | b :: l, hm, hx => by
    rw [List.orderedInsert]
    have hm2 := List.pairwise_cons.mp hm
    by_cases h : dayLe x b
    · rw [if_pos h]
      refine List.pairwise_cons.mpr ⟨?_, hm⟩
      intro z hz
      rcases List.mem_cons.mp hz with rfl | hzl
      · rcases Nat.lt_or_eq_of_le h with hlt | heq
        · exact Or.inl hlt
        · exact Or.inr ⟨heq, hx z (List.mem_cons_self _ _) heq⟩
      · have hbz : day_rank b ≤ day_rank z := by
          rcases hm2.1 z hzl with h2 | ⟨h2, _⟩
          · exact Nat.le_of_lt h2
          · exact Nat.le_of_eq h2
        have hxz : day_rank x ≤ day_rank z := Nat.le_trans h hbz
        rcases Nat.lt_or_eq_of_le hxz with hlt | heq
        · exact Or.inl hlt
        · exact Or.inr ⟨heq, hx z (List.mem_cons_of_mem _ hzl) heq⟩
    · rw [if_neg h]
      refine List.pairwise_cons.mpr
        ⟨?_, orderedInsert_dayOrd x l hm2.2 (fun y hy => hx y (List.mem_cons_of_mem _ hy))⟩
      intro z hz
      rcases (List.mem_orderedInsert dayLe).mp hz with rfl | hzl
      · exact Or.inl (Nat.lt_of_not_le h)
      · exact hm2.1 z hzl

theorem insertionSort_dayOrd :
    ∀ (l : List String), l.Pairwise strLt → (List.insertionSort dayLe l).Pairwise dayOrd
  | [], _ => List.Pairwise.nil
  | x :: xs, hl => by
    rw [List.insertionSort]
    have h := List.pairwise_cons.mp hl
    exact orderedInsert_dayOrd x _ (insertionSort_dayOrd xs h.2)
      (fun y hy _ => h.1 y ((List.mem_insertionSort dayLe).mp hy))

/-- The day labels of `df_grouped` in order: the first components of the
sorted grouping keys. -/
theorem df_grouped_days (rows : List CleanedRow) :
    (df_grouped rows).map (fun g => g.day) =
      (List.insertionSort keyLe (uniqueFirst ((rowKeyed rows).map (fun p => p.1)))).map
        (fun k => k.1) := by
  unfold df_grouped
  dsimp only
  rw [List.map_map]
  rfl

theorem df_grouped_days_pairwise (rows : List CleanedRow) :
    ((df_grouped rows).map (fun g => g.day)).Pairwise strLe := by
  rw [df_grouped_days]
  have hs : (List.insertionSort keyLe
      (uniqueFirst ((rowKeyed rows).map (fun p => p.1)))).Pairwise keyLe :=
    List.sorted_insertionSort keyLe _
  exact hs.map _ (fun a b h => keyLe_fst h)

/-- If every produced pair carries its input as first component, the first
components of a `filterMap` form a sublist of the input. -/
theorem filterMap_fst_sublist {α β : Type} (f : α → Option (α × β)) :
    ∀ (l : List α), (∀ a p, f a = some p → p.1 = a) →
      ((l.filterMap f).map (fun p => p.1)).Sublist l := by
  intro l hf
  induction l with
  | nil => simp
  | cons x xs ih =>
    rw [List.filterMap_cons]
    cases hfx : f x with
    | none => exact (ih).cons x
    | some p =>
      rw [List.map_cons]
      rw [hf x p hfx]
      exact (ih).cons₂ x

/-! ## Structure of the build output -/

/-- Structure of every emitted `(day, matrix)` pair: the day comes from the
rank-sorted distinct day labels, the matrix is the fill-loop result over the
freshly initialized matrix for that day, and the day survived both skip
guards. -/
theorem generate_schedule_mem {data : CleanedData} {view : String} {p : String × DayMatrix}
    (hp : p ∈ generate_schedule data view) :
    ∃ day, day ∈ List.insertionSort dayLe
        (uniqueFirst ((df_grouped data.rows).map (fun g => g.day))) ∧
      p.1 = day ∧
      ((df_grouped data.rows).filter (fun g => g.day == day)).isEmpty = false ∧
      (List.insertionSort strLe
        ((uniqueFirst (((df_grouped data.rows).filter (fun g => g.day == day)).map
          (primaryOf view))).filter (fun x => x != "nan" && x != ""))) ≠ [] ∧
      p.2 = ((df_grouped data.rows).filter (fun g => g.day == day)).foldl (fillEntry view)
        { primary := primaryColName view,
          cols := primaryColName view :: generate_time_slots,
          rowLabels := List.insertionSort strLe
            ((uniqueFirst (((df_grouped data.rows).filter (fun g => g.day == day)).map
              (primaryOf view))).filter (fun x => x != "nan" && x != "")),
          grid := (List.insertionSort strLe
            ((uniqueFirst (((df_grouped data.rows).filter (fun g => g.day == day)).map
              (primaryOf view))).filter (fun x => x != "nan" && x != ""))).map
            (fun q => some q :: generate_time_slots.map (fun _ => none)) } := by
  unfold generate_schedule at hp
  dsimp only at hp
  rcases List.mem_filterMap.mp hp with ⟨day, hday, hbody⟩
  refine ⟨day, hday, ?_⟩
  split at hbody
  · cases hbody
  · split at hbody
    · cases hbody
    · have hpair := Option.some.inj hbody
      subst hpair
      refine ⟨rfl, ?_, ?_, rfl⟩
      · rwa [Bool.not_eq_true] at *
        
      · intro hnil
        rename_i h1 h2
        rw [List.isEmpty_iff] at h2
        exact h2 hnil

/-- The emitted day sequence is strictly sorted by `dayOrd`: nondecreasing
weekday rank, with equal-rank labels in the string order inherited from the
grouping step. -/
theorem generate_schedule_days_pairwise (data : CleanedData) (view : String) :
    ((generate_schedule data view).map (fun p => p.1)).Pairwise dayOrd := by
  have hdays :
      (List.insertionSort dayLe
        (uniqueFirst ((df_grouped data.rows).map (fun g => g.day)))).Pairwise dayOrd :=
    insertionSort_dayOrd _
      (uniqueFirst_pairwise_strict (fun a b => strLt_of_strLe_of_ne) _
        (df_grouped_days_pairwise data.rows))
  refine List.Pairwise.sublist ?_ hdays
  unfold generate_schedule
  dsimp only
  apply filterMap_fst_sublist
  intro day q h
  split at h
  · cases h
  · split at h
    · cases h
    · exact (congrArg Prod.fst (Option.some.inj h)).symm

/-! ## Index and parsing lemmas -/

theorem indexOf_cons_of_ne {α : Type} [DecidableEq α] (x a : α) (l : List α) (h : x ≠ a) :
    (x :: l).indexOf a = l.indexOf a + 1 := by
  simp [List.indexOf_cons, beq_false_of_ne h]

theorem getD_map_none_some {α β : Type} (f : α → Option β) :
    ∀ (l : List α) (i : Nat) {b : β},
      (l.map f).getD i none = some b → ∃ a, a ∈ l ∧ f a = some b := by
  intro l
  induction l with
  | nil => intro i b h; cases h
  | cons x xs ih =>
    intro i b h
    cases i with
    | zero => exact ⟨x, List.mem_cons_self _ _, h⟩
    | succ n =>
      rcases ih n h with ⟨a, ha, hfa⟩
      exact ⟨a, List.mem_cons_of_mem _ ha, hfa⟩

theorem parseHMS_bounds {s : String} {t : Nat × Nat × Nat} (h : parseHMS s = some t) :
    t.1 < 24 ∧ t.2.1 < 60 ∧ t.2.2 < 60 := by
  unfold parseHMS at h
  split at h
  · split at h
    · split at h
      · rename_i hcond
        rw [← Option.some.inj h]
        simp only [Bool.and_eq_true, decide_eq_true_eq] at hcond
        exact ⟨hcond.1.1, hcond.1.2, hcond.2⟩
      · cases h
    · cases h
  · cases h

theorem fmtHMS_ne_empty (t : Nat × Nat × Nat) : fmtHMS t ≠ "" := by
  intro h
  have hl : (fmtHMS t).data.length = 0 := by rw [h]; rfl
  unfold fmtHMS fmt2 at hl
  split_ifs at hl <;> simp [String.data_append] at hl

/-! ## The fixed slot axis -/

theorem time_slots_length : generate_time_slots.length = 20 := by decide

theorem time_slots_indexOf {k : Nat} (hk : k < 20) :
    generate_time_slots.indexOf (generate_time_slots.getD k "") = k := by
  have h : ∀ j, j < 20 → generate_time_slots.indexOf (generate_time_slots.getD j "") = j := by
    decide
  exact h k hk

theorem primaryColName_not_slot (view : String) :
    primaryColName view ∉ generate_time_slots := by
  unfold primaryColName
  split_ifs
  · decide
  · decide

/-! ## Claim C2: slot assignment with spillover -/

/-- **C2.** For every occupancy entry whose start time is the `k`-th slot of
the fixed axis, the fill step writes the entry's display text into the cell
at slot `k` (grid column `k + 1`; column `0` is the primary column) and,
when the slot is not the last one, also into the cell at slot `k + 1` (grid
column `k + 2`); every other cell of the matrix is untouched — in
particular, for the last slot no spillover write occurs. -/
theorem c2_spillover (view : String) (m : DayMatrix) (g : GroupedRow) (k : Nat)
    (hk : k < generate_time_slots.length)
    (hst : g.start_time = generate_time_slots.getD k "")
    (hcols : m.cols = primaryColName view :: generate_time_slots)
    (hmem : primaryOf view g ∈ m.rowLabels)
    (hwf : MatrixWF m) :
    (getCell (fillEntry view m g) (m.rowLabels.indexOf (primaryOf view g)) (k + 1) =
      some (mergeCell (getCell m (m.rowLabels.indexOf (primaryOf view g)) (k + 1))
        (cellTextOf view g))) ∧
    (k + 1 < generate_time_slots.length →
      getCell (fillEntry view m g) (m.rowLabels.indexOf (primaryOf view g)) (k + 2) =
        some (mergeCell (getCell m (m.rowLabels.indexOf (primaryOf view g)) (k + 2))
          (cellTextOf view g))) ∧
    (∀ a b : Nat,
      ¬(a = m.rowLabels.indexOf (primaryOf view g) ∧
          (b = k + 1 ∨ (k + 1 < generate_time_slots.length ∧ b = k + 2))) →
      getCell (fillEntry view m g) a b = getCell m a b) := by
  have hlen : generate_time_slots.length = 20 := time_slots_length
  have hkk : k < 20 := hlen ▸ hk
  have hslotmem : generate_time_slots.getD k "" ∈ generate_time_slots :=
    getD_mem _ _ _ hk
  have hpns : primaryColName view ∉ generate_time_slots := primaryColName_not_slot view
  have hne : primaryColName view ≠ generate_time_slots.getD k "" :=
    fun he => hpns (he ▸ hslotmem)
  have hmc : g.start_time ∈ m.cols := by
    rw [hcols, hst]
    exact List.mem_cons_of_mem _ hslotmem
  have hidx : m.cols.indexOf g.start_time = k + 1 := by
    rw [hcols, hst, indexOf_cons_of_ne _ _ _ hne, time_slots_indexOf hkk]
  have hclen : m.cols.length = 21 := by
    rw [hcols, List.length_cons, hlen]
  have hself := getCell_update_cell_self m (primaryOf view g) g.start_time
    (cellTextOf view g) hwf hmem hmc
  rw [hidx] at hself
  unfold fillEntry
  dsimp only
  rw [if_pos hmem, if_pos hmc, hidx]
  by_cases hspill : k + 1 < generate_time_slots.length
  · have hcond : k + 1 + 1 < m.cols.length := by omega
    rw [if_pos hcond]
    have hspill20 : k + 1 < 20 := hlen ▸ hspill
    have hc2 : m.cols.getD (k + 1 + 1) "" = generate_time_slots.getD (k + 1) "" := by
      rw [hcols, List.getD_cons_succ]
    have hslot2mem : generate_time_slots.getD (k + 1) "" ∈ generate_time_slots :=
      getD_mem _ _ _ hspill
    have hne2 : primaryColName view ≠ generate_time_slots.getD (k + 1) "" :=
      fun he => hpns (he ▸ hslot2mem)
    have hc2mem : m.cols.getD (k + 1 + 1) "" ∈ m.cols := by
      rw [hc2, hcols]
      exact List.mem_cons_of_mem _ hslot2mem
    have hidx2 : m.cols.indexOf (m.cols.getD (k + 1 + 1) "") = k + 2 := by
      rw [hc2, hcols, indexOf_cons_of_ne _ _ _ hne2, time_slots_indexOf hspill20]
    have hm1wf : MatrixWF (update_cell m (primaryOf view g) g.start_time
        (cellTextOf view g)) := update_cell_WF _ _ _ _ hwf
    have hm1rows : (update_cell m (primaryOf view g) g.start_time
        (cellTextOf view g)).rowLabels = m.rowLabels := update_cell_rowLabels _ _ _ _
    have hm1cols : (update_cell m (primaryOf view g) g.start_time
        (cellTextOf view g)).cols = m.cols := update_cell_cols _ _ _ _
    have hself2 := getCell_update_cell_self
      (update_cell m (primaryOf view g) g.start_time (cellTextOf view g))
      (primaryOf view g) (m.cols.getD (k + 1 + 1) "") (cellTextOf view g) hm1wf
      (hm1rows ▸ hmem) (hm1cols ▸ hc2mem)
    rw [hm1rows, hm1cols, hidx2] at hself2
    refine ⟨?_, fun _ => ?_, ?_⟩
    · rw [getCell_update_cell_other _ _ _ _ _ _
        (Or.inr (by rw [hm1cols, hidx2]; omega)), hself]
    · rw [hself2, getCell_update_cell_other _ _ _ _ _ _
        (Or.inr (by rw [hidx]; omega))]
    · intro a b hab
      push_neg at hab
      by_cases ha : a = m.rowLabels.indexOf (primaryOf view g)
      · have hb := hab ha
        have hb1 : b ≠ k + 1 := hb.1
        have hb2 : b ≠ k + 2 := fun he => (hb.2 hspill) he
        rw [getCell_update_cell_other _ _ _ _ _ _ (Or.inr (by rw [hm1cols, hidx2]; exact hb2)),
          getCell_update_cell_other _ _ _ _ _ _ (Or.inr (by rw [hidx]; exact hb1))]
      · rw [getCell_update_cell_other _ _ _ _ _ _ (Or.inl (by rw [hm1rows]; exact ha)),
          getCell_update_cell_other _ _ _ _ _ _ (Or.inl ha)]
  · have hcond : ¬(k + 1 + 1 < m.cols.length) := by omega
    rw [if_neg hcond]
    refine ⟨hself, fun h => absurd h hspill, ?_⟩
    intro a b hab
    push_neg at hab
    by_cases ha : a = m.rowLabels.indexOf (primaryOf view g)
    · exact getCell_update_cell_other _ _ _ _ _ _ (Or.inr (by rw [hidx]; exact (hab ha).1))
    · exact getCell_update_cell_other _ _ _ _ _ _ (Or.inl ha)

/-- Witness for `c2_spillover` at slot `k = 0` of the concrete matrix. -/
theorem c2_spillover_witness :
    (0 : Nat) < generate_time_slots.length ∧
    getCell (fillEntry "room" c2w_m c2w_g)
        (c2w_m.rowLabels.indexOf (primaryOf "room" c2w_g)) 1 =
      some (mergeCell (getCell c2w_m (c2w_m.rowLabels.indexOf (primaryOf "room" c2w_g)) 1)
        (cellTextOf "room" c2w_g)) := by
  have h := c2_spillover "room" c2w_m c2w_g 0 (by decide) (by decide) (by decide)
    (by decide) (by decide)
  exact ⟨by decide, h.1⟩

/-! ## Claim C4: merge-on-collision, never overwrite -/

/-- **C4.** `update_cell` never overwrites: writing text `t1` into a valid
cell stores `mergeCell old t1` — the text itself when the cell was empty,
and `old ++ "\n---\n" ++ t1` otherwise — and a second write `t2` to the same
cell appends after the separator, so both texts appear in write order. -/
theorem c4_collision_merge (m : DayMatrix) (r c t1 t2 : String)
    (hr : r ∈ m.rowLabels) (hc : c ∈ m.cols) (hwf : MatrixWF m) :
    (getCell (update_cell m r c t1) (m.rowLabels.indexOf r) (m.cols.indexOf c) =
      some (mergeCell (getCell m (m.rowLabels.indexOf r) (m.cols.indexOf c)) t1)) ∧
    (getCell m (m.rowLabels.indexOf r) (m.cols.indexOf c) = none →
      mergeCell (getCell m (m.rowLabels.indexOf r) (m.cols.indexOf c)) t1 = t1) ∧
    (∀ s, getCell m (m.rowLabels.indexOf r) (m.cols.indexOf c) = some s →
      mergeCell (getCell m (m.rowLabels.indexOf r) (m.cols.indexOf c)) t1 =
        s ++ "\n---\n" ++ t1) ∧
    (getCell (update_cell (update_cell m r c t1) r c t2)
        (m.rowLabels.indexOf r) (m.cols.indexOf c) =
      some ((mergeCell (getCell m (m.rowLabels.indexOf r) (m.cols.indexOf c)) t1) ++
        "\n---\n" ++ t2)) := by
  have hself := getCell_update_cell_self m r c t1 hwf hr hc
  have hm1wf : MatrixWF (update_cell m r c t1) := update_cell_WF _ _ _ _ hwf
  have hm1rows : (update_cell m r c t1).rowLabels = m.rowLabels := update_cell_rowLabels _ _ _ _
  have hm1cols : (update_cell m r c t1).cols = m.cols := update_cell_cols _ _ _ _
  have hself2 := getCell_update_cell_self (update_cell m r c t1) r c t2 hm1wf
    (hm1rows ▸ hr) (hm1cols ▸ hc)
  rw [hm1rows, hm1cols, hself] at hself2
  refine ⟨hself, ?_, ?_, ?_⟩
  · intro h
    rw [h]
    rfl
  · intro s h
    rw [h]
    rfl
  · rw [hself2]
    rfl

/-- Witness for `c4_collision_merge`: two writes into the same empty cell of
the concrete one-row matrix accumulate both texts around the separator. -/
theorem c4_collision_merge_witness :
    getCell (update_cell (update_cell c2w_m "101" "08:05:00" "first") "101" "08:05:00" "second")
        (c2w_m.rowLabels.indexOf "101") (c2w_m.cols.indexOf "08:05:00") =
      some ((mergeCell (getCell c2w_m (c2w_m.rowLabels.indexOf "101")
        (c2w_m.cols.indexOf "08:05:00")) "first") ++ "\n---\n" ++ "second") := by
  have h := c4_collision_merge c2w_m "101" "08:05:00" "first" "second"
    (by decide) (by decide) (by decide)
  exact h.2.2.2

/-! ## Claim C3: start-time normalization -/

theorem permissiveTime_bounds {c : Cell} {t : Nat × Nat × Nat}
    (h : permissiveTime c = some t) : t.1 < 24 ∧ t.2.1 < 60 ∧ t.2.2 < 60 := by
  unfold permissiveTime at h
  split at h
  · cases h
  · exact parseHMS_bounds h

/-- **C3 (amended).** Every row surviving normalization has a non-empty
`start_time` of the shape `HH:MM:SS` rendered from a successfully parsed
time of day. (Membership in the fixed slot axis is *not* checked here:
`c3_counterexample` shows an off-axis time surviving normalization and only
being skipped by the grid builder's fill step.) -/
theorem c3_amended (ts : List RawTable) (d : CleanedData)
    (hok : load_and_clean_data ts = Except.ok d) :
    ∀ r ∈ d.rows, r.start_time ≠ "" ∧
      ∃ t : Nat × Nat × Nat, t.1 < 24 ∧ t.2.1 < 60 ∧ t.2.2 < 60 ∧
        r.start_time = fmtHMS t := by
  by_cases hmem : "START TIME" ∈ (mergedTable ts).columns
  · unfold load_and_clean_data at hok
    dsimp only at hok
    rw [if_pos hmem] at hok
    have hd := Except.ok.inj hok
    rw [← hd]
    intro r hr
    dsimp only at hr
    rcases List.mem_filterMap.mp hr with ⟨i, hi, hfi⟩
    split at hfi
    · cases hfi
    · rename_i st hst
      have hrec := Option.some.inj hfi
      rw [← hrec]
      dsimp only
      split at hst
      · rcases getD_map_none_some _ _ _ hst with ⟨cell, hcell, hmap⟩
        rcases Option.map_eq_some'.mp hmap with ⟨t, hparse, hfmt⟩
        have hb := parseHMS_bounds hparse
        exact ⟨hfmt ▸ fmtHMS_ne_empty t, t, hb.1, hb.2.1, hb.2.2, hfmt.symm⟩
      · rcases getD_map_none_some _ _ _ hst with ⟨cell, hcell, hmap⟩
        rcases Option.map_eq_some'.mp hmap with ⟨t, hparse, hfmt⟩
        have hb := permissiveTime_bounds hparse
        exact ⟨hfmt ▸ fmtHMS_ne_empty t, t, hb.1, hb.2.1, hb.2.2, hfmt.symm⟩
  · unfold load_and_clean_data at hok
    dsimp only at hok
    rw [if_neg hmem] at hok
    cases hok

/-- **C3 counterexample.** A row whose start time `09:00:00` does not fall
on any slot boundary of the fixed axis is *not* excluded during
normalization: it survives as a `ClassRecord` whose `start_time` matches no
axis entry, and the grid builder later leaves every slot cell of its day
matrix empty (the row is skipped at fill time, not dropped earlier). -/
theorem c3_counterexample :
    load_and_clean_data [c3_table] = Except.ok { hasDay := true, rows := [c3_row] } ∧
    c3_row.start_time = "09:00:00" ∧
    ("09:00:00" : String) ∉ generate_time_slots ∧
    c3_out.map (fun p => p.2.grid) =
      [[some "101" :: generate_time_slots.map (fun _ => none)]] :=
  ⟨rfl, rfl, by decide, by decide⟩

/-- Witness for `c3_amended` at the concrete surviving row of `c3_table`. -/
theorem c3_amended_witness :
    ("09:00:00" : String) ≠ "" ∧
    ∃ t : Nat × Nat × Nat, t.1 < 24 ∧ t.2.1 < 60 ∧ t.2.2 < 60 ∧
      ("09:00:00" : String) = fmtHMS t := by
  have h := c3_amended [c3_table] { hasDay := true, rows := [c3_row] } rfl
    c3_row (List.mem_singleton_self _)
  exact h

/-! ## Claim C1: end-to-end example -/

/-- **C1.** The end-to-end example: normalize-then-build on the two `Mon`
rows under `view = room` yields exactly one day matrix, labelled `Mon`,
with the single data row `101`, the two rows grouped into one occupancy
entry with both intake/group labels (`"JAN G1\nJAN G2"`, deduplicated, no
row dropped), and the cells at columns `08:05:00` and `08:35:00` (grid
columns 1 and 2) both holding `"A\nMath\nJAN G1\nJAN G2"`. -/
theorem c1_end_to_end :
    (load_and_clean_data [c1_table] = Except.ok c1_cleaned) ∧
    (df_grouped c1_cleaned.rows).length = 1 ∧
    (df_grouped c1_cleaned.rows).map (fun g => g.intake_group) = ["JAN G1\nJAN G2"] ∧
    c1_out.map (fun p => p.1) = ["Mon"] ∧
    c1_out.length = 1 ∧
    (c1_out.getD 0 default).2.rowLabels = ["101"] ∧
    (c1_out.getD 0 default).2.cols.getD 1 "" = "08:05:00" ∧
    (c1_out.getD 0 default).2.cols.getD 2 "" = "08:35:00" ∧
    getCell (c1_out.getD 0 default).2 0 1 = some "A\nMath\nJAN G1\nJAN G2" ∧
    getCell (c1_out.getD 0 default).2 0 2 = some "A\nMath\nJAN G1\nJAN G2" :=
  ⟨rfl, by decide, by decide, by decide, by decide, by decide, by decide, by decide,
    by decide, by decide⟩

/-! ## Claim C8: determinism of the pipeline -/

/-- **C8.** The normalize-then-build pipeline is deterministic: its
embedding is a pure function (the grouping key sort, the first-occurrence
`unique`, and the stable rank sort are all deterministic operations), so two
runs on the same input produce identical `(day label, DayMatrix)` sequences. -/
theorem c8_deterministic (ts : List RawTable) (view : String) :
    pipeline ts view = pipeline ts view ∧
    load_and_clean_data ts = load_and_clean_data ts ∧
    ∀ d : CleanedData, generate_schedule d view = generate_schedule d view :=
  ⟨rfl, rfl, fun _ => rfl⟩

/-! ## Claim C9: the `"nan"` coercion artifact -/

/-- **C9.** String coercion turns a missing cell of a present text column
into the literal `"nan"` (not `""`): row 1's missing intake and group
become `"nan"`, its derived `intake_group` is `"nan nan"`, and this text
appears verbatim inside the grid cell display; row 2's missing room becomes
the literal `"nan"`, which is exactly the value the grid builder's
row-filter excludes from the primary axis (`rowLabels = ["101"]`). -/
theorem c9_nan_artifact :
    (c9_cleaned.rows.getD 0 default).group = "nan" ∧
    (c9_cleaned.rows.getD 0 default).intake = "nan" ∧
    ("nan" : String) ≠ "" ∧
    (c9_cleaned.rows.getD 0 default).intake_group = "nan nan" ∧
    getCell (c9_out.getD 0 default).2 0 1 = some "A\nMath\nnan nan" ∧
    (c9_cleaned.rows.getD 1 default).room = "nan" ∧
    (c9_out.getD 0 default).2.rowLabels = ["101"] :=
  ⟨by decide, by decide, by decide, by decide, by decide, by decide, by decide⟩

/-! ## Claim C10: day labels compare by exact string equality -/

/-- **C10 counterexample.** With `"Mon"` encountered before `"MON"` in the
input, the emitted order is `["MON", "Mon"]` — the grouping step's key sort
orders the labels lexicographically (uppercase before lowercase), not in
first-encounter order, so the claim's "emitted … in first-encounter order"
fails at this input. -/
theorem c10_counterexample :
    c10_out.map (fun p => p.1) = ["MON", "Mon"] ∧
    (["MON", "Mon"] : List String) ≠ ["Mon", "MON"] :=
  ⟨by decide, by decide⟩

theorem lexLt_irrefl : ∀ xs, ¬ lexLt xs xs
  | [], h => h
  | _ :: _, Or.inl h => absurd h (Nat.lt_irrefl _)
  | _ :: as, Or.inr ⟨_, h⟩ => lexLt_irrefl as h

theorem strLt_irrefl (a : String) : ¬ strLt a a := lexLt_irrefl a.data

theorem dayOrd_irrefl (a : String) : ¬ dayOrd a a := by
  rintro (h | ⟨_, h⟩)
  · exact Nat.lt_irrefl _ h
  · exact strLt_irrefl _ h

theorem isEmpty_eq_false_of_mem {α : Type} {x : α} {l : List α} (h : x ∈ l) :
    l.isEmpty = false := by
  cases l with
  | nil => cases h
  | cons y ys => rfl

/-- The members aggregated into the occupancy entry keyed by `k` are exactly
the cleaned rows agreeing with `k` component-for-component — grouping uses
exact string equality on every key field, the day label included. -/
theorem keyed_filter_eq (k : GroupKey) :
    ∀ rows : List CleanedRow,
      (((rowKeyed rows).filter (fun p => p.1 == k)).map (fun p => p.2)) =
        ((rows.filter (fun r => decide (r.day = some k.1 ∧ r.start_time = k.2.1 ∧
          r.subject = k.2.2.1 ∧ r.teacher = k.2.2.2.1 ∧ r.room = k.2.2.2.2))).map
          (fun r => r.intake_group)) := by
  intro rows
  induction rows with
  | nil => rfl
  | cons r rs ih =>
    unfold rowKeyed at ih ⊢
    rw [List.filterMap_cons, List.filter_cons]
    cases hd : r.day with
    | none =>
      dsimp only [hd, Option.map_none']
      rw [if_neg (by simp [hd])]
      exact ih
    | some d =>
      dsimp only [hd, Option.map_some']
      rw [List.filter_cons]
      have hcond : ((d, r.start_time, r.subject, r.teacher, r.room) == k) =
          decide (some d = some k.1 ∧ r.start_time = k.2.1 ∧ r.subject = k.2.2.1 ∧
            r.teacher = k.2.2.2.1 ∧ r.room = k.2.2.2.2) := by
        rw [beq_eq_decide]
        apply decide_eq_decide.mpr
        obtain ⟨k1, k2, k3, k4, k5⟩ := k
        simp [Prod.ext_iff]
      rw [hcond]
      by_cases hc : (some d = some k.1 ∧ r.start_time = k.2.1 ∧ r.subject = k.2.2.1 ∧
          r.teacher = k.2.2.2.1 ∧ r.room = k.2.2.2.2)
      · rw [if_pos (decide_eq_true hc), if_pos (decide_eq_true hc)]
        rw [List.map_cons, List.map_cons, ih]
      · rw [if_neg (fun h => hc (of_decide_eq_true h)),
          if_neg (fun h => hc (of_decide_eq_true h))]
        exact ih

/-- Every grouped row's merged intake/group text is built from exactly the
cleaned rows whose day, start time, subject, teacher and room equal the
entry's own, character for character. -/
theorem df_grouped_exact_day (rows : List CleanedRow) (g : GroupedRow)
    (hg : g ∈ df_grouped rows) :
    g.intake_group = pyJoin "\n" (uniqueFirst ((rows.filter (fun r =>
      decide (r.day = some g.day ∧ r.start_time = g.start_time ∧
        r.subject = g.subject ∧ r.teacher = g.teacher ∧ r.room = g.room))).map
      (fun r => r.intake_group))) := by
  unfold df_grouped at hg
  dsimp only at hg
  rcases List.mem_map.mp hg with ⟨k, _, hmk⟩
  rw [← hmk]
  dsimp only
  rw [keyed_filter_eq]

theorem mem_map_fst_filterMap {α β : Type} (f : α → Option (α × β)) (l : List α) (d : α)
    (hd : d ∈ l) (hf : ∀ p, f d = some p → p.1 = d) (hsome : f d ≠ none) :
    d ∈ (l.filterMap f).map (fun p => p.1) := by
  cases hp : f d with
  | none => exact absurd hp hsome
  | some p => exact List.mem_map.mpr ⟨p, List.mem_filterMap.mpr ⟨d, hd, hp⟩, hf p hp⟩

/-- Every day label carried by a grouped row with at least one valid primary
value is emitted with a day matrix of its own. -/
theorem day_emitted (data : CleanedData) (view : String) (d : String)
    (h : ∃ g, g ∈ df_grouped data.rows ∧ g.day = d ∧
      primaryOf view g ≠ "nan" ∧ primaryOf view g ≠ "") :
    d ∈ (generate_schedule data view).map (fun p => p.1) := by
  rcases h with ⟨g, hg, hgd, hnan, hempty⟩
  have hdu : d ∈ List.insertionSort dayLe
      (uniqueFirst ((df_grouped data.rows).map (fun q => q.day))) := by
    rw [List.mem_insertionSort, mem_uniqueFirst]
    exact List.mem_map.mpr ⟨g, hg, hgd⟩
  have hgday : g ∈ (df_grouped data.rows).filter (fun q => q.day == d) := by
    rw [List.mem_filter]
    refine ⟨hg, ?_⟩
    rw [hgd]
    exact beq_self_eq_true d
  have h1 : ((df_grouped data.rows).filter (fun q => q.day == d)).isEmpty = false :=
    isEmpty_eq_false_of_mem hgday
  have hprim : primaryOf view g ∈ (uniqueFirst (((df_grouped data.rows).filter
      (fun q => q.day == d)).map (primaryOf view))).filter
      (fun x => x != "nan" && x != "") := by
    rw [List.mem_filter, mem_uniqueFirst]
    refine ⟨List.mem_map.mpr ⟨g, hgday, rfl⟩, ?_⟩
    simp [bne_iff_ne, hnan, hempty]
  have h2 : (List.insertionSort strLe ((uniqueFirst (((df_grouped data.rows).filter
      (fun q => q.day == d)).map (primaryOf view))).filter
      (fun x => x != "nan" && x != ""))).isEmpty = false :=
    isEmpty_eq_false_of_mem ((List.mem_insertionSort strLe).mpr hprim)
  unfold generate_schedule
  dsimp only
  apply mem_map_fst_filterMap _ _ _ hdu
  · intro p hp
    split at hp
    · cases hp
    · split at hp
      · cases hp
      · exact (congrArg Prod.fst (Option.some.inj hp)).symm
  · intro hnone
    split at hnone
    · rename_i hc
      rw [h1] at hc
      cases hc
    · split at hnone
      · rename_i hc
        rw [h2] at hc
        cases hc
      · cases hnone

/-- **C10 (amended).** Day-label identity throughout the grid builder is
exact string equality, and this holds generally, not only for the concrete
example:
1. two labels equal after strip + uppercase — i.e. differing only in casing
   or whitespace — always receive the same weekday rank;
2. every occupancy entry aggregates exactly the cleaned rows whose day
   label (and other key fields) equal its own character for character, so
   records under labels that differ at all — in casing or in whitespace —
   never merge into one entry;
3. the emitted day labels are pairwise distinct (each label has a day
   matrix of its own);
4. every label carried by a grouped row with a valid primary value is
   emitted with its own matrix;
5. between two emitted labels of equal rank every emitted label has that
   same rank (equal-rank labels, in particular case/whitespace variants of
   one weekday, are emitted adjacently);
6. two emitted labels of equal rank appear in lexicographic (string)
   order — not in first-encounter order;
and concretely, `"Mon"`/`"MON"` give two grouped rows, two adjacent
matrices emitted as `["MON", "Mon"]`, both rank 0, with unmerged cell
contents. -/
theorem c10_amended :
    (∀ d1 d2 : String, pyUpper (pyStrip d1) = pyUpper (pyStrip d2) →
      day_rank d1 = day_rank d2) ∧
    (∀ (rows : List CleanedRow) (g : GroupedRow), g ∈ df_grouped rows →
      g.intake_group = pyJoin "\n" (uniqueFirst ((rows.filter (fun r =>
        decide (r.day = some g.day ∧ r.start_time = g.start_time ∧
          r.subject = g.subject ∧ r.teacher = g.teacher ∧ r.room = g.room))).map
        (fun r => r.intake_group)))) ∧
    (∀ (data : CleanedData) (view : String),
      ((generate_schedule data view).map (fun p => p.1)).Nodup) ∧
    (∀ (data : CleanedData) (view : String) (d : String),
      (∃ g, g ∈ df_grouped data.rows ∧ g.day = d ∧
        primaryOf view g ≠ "nan" ∧ primaryOf view g ≠ "") →
      d ∈ (generate_schedule data view).map (fun p => p.1)) ∧
    (∀ (data : CleanedData) (view : String) (l1 l2 l3 : String),
      [l1, l2, l3].Sublist ((generate_schedule data view).map (fun p => p.1)) →
      day_rank l1 = day_rank l3 → day_rank l2 = day_rank l1) ∧
    (∀ (data : CleanedData) (view : String) (l1 l2 : String),
      [l1, l2].Sublist ((generate_schedule data view).map (fun p => p.1)) →
      day_rank l1 = day_rank l2 → strLt l1 l2) ∧
    (df_grouped c10_cleaned.rows).length = 2 ∧
    c10_out.map (fun p => p.1) = ["MON", "Mon"] ∧
    day_rank "Mon" = 0 ∧ day_rank "MON" = 0 ∧
    getCell (c10_out.getD 0 default).2 0 1 = some "A\nMath\nJAN G2" ∧
    getCell (c10_out.getD 1 default).2 0 1 = some "A\nMath\nJAN G1" := by
  refine ⟨?_, df_grouped_exact_day, ?_, day_emitted, ?_, ?_,
    by decide, by decide, by decide, by decide, by decide, by decide⟩
  · intro d1 d2 h
    unfold day_rank
    rw [h]
  · intro data view
    have himp : ∀ {a b : String}, dayOrd a b → a ≠ b := by
      intro a b hab heq
      rw [heq] at hab
      exact dayOrd_irrefl _ hab
    exact (generate_schedule_days_pairwise data view).imp himp
  · intro data view l1 l2 l3 hsub hrank
    have hp := List.Pairwise.sublist hsub (generate_schedule_days_pairwise data view)
    have h12 := (List.pairwise_cons.mp hp).1 l2 (List.mem_cons_self _ _)
    have h23 := (List.pairwise_cons.mp (List.pairwise_cons.mp hp).2).1 l3
      (List.mem_cons_self _ _)
    have hr12 : day_rank l1 ≤ day_rank l2 := by
      rcases h12 with h | ⟨h, _⟩
      · exact Nat.le_of_lt h
      · exact Nat.le_of_eq h
    have hr23 : day_rank l2 ≤ day_rank l3 := by
      rcases h23 with h | ⟨h, _⟩
      · exact Nat.le_of_lt h
      · exact Nat.le_of_eq h
    omega
  · intro data view l1 l2 hsub hrank
    have hp := List.Pairwise.sublist hsub (generate_schedule_days_pairwise data view)
    have h12 := (List.pairwise_cons.mp hp).1 l2 (List.mem_cons_self _ _)
    rcases h12 with h | ⟨_, h⟩
    · omega
    · exact h

/-- Witness for `c10_amended`: the rank-equality part applied to the
case-variant pair `"Mon"`/`"MON"`, and the completeness part applied to the
`"Mon"` row of the concrete input. -/
theorem c10_amended_witness :
    day_rank "Mon" = day_rank "MON" ∧
    ("Mon" : String) ∈ (generate_schedule c10_cleaned "room").map (fun p => p.1) := by
  have h := c10_amended
  refine ⟨h.1 "Mon" "MON" (by decide), ?_⟩
  exact h.2.2.2.1 c10_cleaned "room" "Mon"
    ⟨c10_mon_grouped, by decide, rfl, by decide, by decide⟩


/-! ## Claim C5: day ordering -/

/-- **C5 counterexample.** Two unrecognized day labels in encounter order
`Zeta, Alpha` are emitted as `["Alpha", "Zeta"]`: the grouping step sorts
day labels lexicographically before the stable rank sort, so unrecognized
labels do **not** keep their input-encounter order among themselves. -/
theorem c5_counterexample :
    c5cx_days = ["Alpha", "Zeta"] ∧ c5cx_days ≠ ["Zeta", "Alpha"] :=
  ⟨by decide, by decide⟩

/-- **C5 (amended).** The emitted day sequence is ordered by the canonical
weekday rank (Monday=0 … Sunday=6, abbreviated and full names, case- and
whitespace-insensitive), every unrecognized label (rank 99) sorting after
all recognized weekdays; labels of equal rank — in particular the
unrecognized ones among themselves — appear in lexicographic (string)
order, inherited from the grouping step's sorted keys, not in
input-encounter order. The example `["FRI", "Monday", "wed"]` still yields
`Monday, wed, FRI`. -/
theorem c5_amended :
    (∀ (data : CleanedData) (view : String),
      ((generate_schedule data view).map (fun p => p.1)).Pairwise dayOrd) ∧
    c5ex_days = ["Monday", "wed", "FRI"] :=
  ⟨fun data view => generate_schedule_days_pairwise data view, by decide⟩

/-! ## Claim C6: the schema error -/

/-- **C7.** Every emitted day matrix has the primary-entity column followed
by the entire fixed slot axis — `len(TimeSlotAxis) + 1` columns regardless
of which start times occur — and its row set is the lexicographically
sorted, duplicate-free list of that day's primary values with `""` and the
literal `"nan"` excluded; a day whose row set would be empty is never
emitted. -/
theorem c7_matrix_shape (data : CleanedData) (view : String) (p : String × DayMatrix)
    (hp : p ∈ generate_schedule data view) :
    p.2.cols = primaryColName view :: generate_time_slots ∧
    p.2.cols.length = generate_time_slots.length + 1 ∧
    p.2.rowLabels ≠ [] ∧
    p.2.rowLabels.Pairwise strLe ∧
    p.2.rowLabels.Nodup ∧
    (∀ x, x ∈ p.2.rowLabels ↔
      (x ∈ ((df_grouped data.rows).filter (fun g => g.day == p.1)).map (primaryOf view) ∧
        x ≠ "nan" ∧ x ≠ "")) := by
  rcases generate_schedule_mem hp with ⟨day, _, hlabel, _, hnil, hmat⟩
  have hcols : p.2.cols = primaryColName view :: generate_time_slots := by
    rw [hmat, foldl_fillEntry_cols]
  have hrows : p.2.rowLabels = List.insertionSort strLe
      ((uniqueFirst (((df_grouped data.rows).filter (fun g => g.day == day)).map
        (primaryOf view))).filter (fun x => x != "nan" && x != "")) := by
    rw [hmat, foldl_fillEntry_rowLabels]
  refine ⟨hcols, ?_, ?_, ?_, ?_, ?_⟩
  · rw [hcols, List.length_cons]
  · rw [hrows]
    exact hnil
  · rw [hrows]
    exact List.sorted_insertionSort strLe _
  · rw [hrows]
    exact ((List.perm_insertionSort strLe _).nodup_iff).mpr
      ((nodup_uniqueFirst _).filter _)
  · intro x
    rw [hrows, hlabel, List.mem_insertionSort, List.mem_filter, mem_uniqueFirst]
    simp only [Bool.and_eq_true, bne_iff_ne]

/-- Witness for `c7_matrix_shape` at the matrix emitted for `c1_table`. -/
theorem c7_matrix_shape_witness :
    (c1_out.getD 0 default) ∈ generate_schedule c1_cleaned "room" ∧
    (c1_out.getD 0 default).2.cols.length = generate_time_slots.length + 1 := by
  have hmem : (c1_out.getD 0 default) ∈ generate_schedule c1_cleaned "room" := by decide
  have h := c7_matrix_shape c1_cleaned "room" _ hmem
  exact ⟨hmem, h.2.1⟩
